import Mathlib

/-!
Shallow embedding of the Intcode interpreter from `src/intcode.rs` of the
repository, together with theorems settling the specification claims about
it.  Rust `i64` words are modelled as `Int` (the interpreter aborts long
before any `i64` overflow can occur on the puzzle inputs, and the spec
mandates a 64-bit-or-wider signed word, so unbounded integers are faithful
for every claim below).  Every fatal condition of the source — both Rust
`panic!`/`expect` aborts and `anyhow` errors — is modelled as the `.error`
case of `Except String`, carrying the source's message text.  The `trace`
flags of the source are omitted: they only control debug printing and have
no semantic effect.
-/

deriving instance DecidableEq for Except

set_option maxHeartbeats 1000000

namespace Intcode

abbrev Word := Int

/-- Memory of the machine: `struct Memory { vec: Vec<i64>, trace: bool }`
from the source, with the print-only `trace` flag omitted. -/
structure Memory where
  vec : List Word
deriving Repr, DecidableEq

/-- Translation of `Memory::get`: a negative index panics
(`"invalid index: {index}"`); an index at or beyond the current extent
reads zero; otherwise the stored cell is read.  No growth happens. -/
def Memory.get (m : Memory) (index : Int) : Except String Word :=
  if index < 0 then .error ("invalid index: " ++ toString index)
  else .ok (if (m.vec.length : Int) ≤ index then 0 else m.vec.getD index.toNat 0)

/-- Translation of `Memory::set`: an index outside `0..(100 * 1000)` panics
(`"invalid index: {index}"`); otherwise the source loops
`while index >= vec.len() { vec.push(0) }` — appending
`index + 1 - len` zeros, written here in closed form — and then assigns
`vec[index] = value`. -/
def Memory.set (m : Memory) (index : Int) (value : Word) : Except String Memory :=
  if ¬(0 ≤ index ∧ index < 100 * 1000) then .error ("invalid index: " ++ toString index)
  else
    .ok ⟨(m.vec ++ List.replicate (index.toNat + 1 - m.vec.length) 0).set index.toNat value⟩

/-- Translation of `Memory::push`. -/
def Memory.push (m : Memory) (value : Word) : Memory :=
  ⟨m.vec ++ [value]⟩

/-- The ten opcodes of the machine (`enum Opcode` in the source). -/
inductive Opcode where
  | Add
  | Multiply
  | Input
  | Output
  | JumpIfTrue
  | JumpIfFalse
  | LessThan
  | Equals
  | Finished
  | AdjustRelativeBase
deriving Repr, DecidableEq

/-- Translation of `Opcode::from` (renamed: `from` is a Lean keyword).
Exactly 1, 2, 3, 4, 5, 6, 7, 8, 9 and 99 decode; anything else fails with
`"Invalid opcode: {i}"`. -/
def Opcode.fromInt (i : Int) : Except String Opcode :=
  if i = 1 then .ok .Add
  else if i = 2 then .ok .Multiply
  else if i = 3 then .ok .Input
  else if i = 4 then .ok .Output
  else if i = 5 then .ok .JumpIfTrue
  else if i = 6 then .ok .JumpIfFalse
  else if i = 7 then .ok .LessThan
  else if i = 8 then .ok .Equals
  else if i = 9 then .ok .AdjustRelativeBase
  else if i = 99 then .ok .Finished
  else .error ("Invalid opcode: " ++ toString i)

/-- The three addressing modes (`enum ParameterMode` in the source). -/
inductive ParameterMode where
  | Position
  | Immediate
  | RelativePosition
deriving Repr, DecidableEq

/-- Translation of `ParameterMode::from` (renamed: `from` is a Lean
keyword). -/
def ParameterMode.fromInt (i : Int) : Except String ParameterMode :=
  if i = 0 then .ok .Position
  else if i = 1 then .ok .Immediate
  else if i = 2 then .ok .RelativePosition
  else .error ("Invalid parameter mode: " ++ toString i)

/-- A decoded parameter: addressing mode plus raw value
(`struct Parameter` in the source). -/
structure Parameter where
  mode : ParameterMode
  value : Word
deriving Repr, DecidableEq

/-- A decoded instruction (`enum Instruction` in the source). -/
inductive Instruction where
  | Add (a b c : Parameter)
  | Multiply (a b c : Parameter)
  | Input (a : Parameter)
  | Output (a : Parameter)
  | JumpIfTrue (a b : Parameter)
  | JumpIfFalse (a b : Parameter)
  | LessThan (a b c : Parameter)
  | Equals (a b c : Parameter)
  | Finished
  | AdjustRelativeBase (a : Parameter)
deriving Repr, DecidableEq

/-- The source's `for _ in 0..param { tmp /= 10 }` loop: repeated Rust
(truncating) division by 10. -/
def divPow10 : Int → Nat → Int
  | t, 0 => t
  | t, n + 1 => divPow10 (Int.tdiv t 10) n

/-- Translation of `parse_parameter`.  A parameter index outside `0..=2`
panics; the mode digit is extracted from `instruction / 100` by `param`
further truncating divisions by 10 (Rust `i64` division, `Int.tdiv`); the
raw value is read from `memory[pc + 1 + param]` before the mode digit is
validated, matching the source's evaluation order. -/
def parse_parameter (param instruction pc : Int) (memory : Memory) :
    Except String Parameter :=
  if ¬(0 ≤ param ∧ param ≤ 2) then
    .error ("Invalid parameter index: " ++ toString param)
  else
    let tmp := divPow10 (Int.tdiv instruction 100) param.toNat
    match memory.get (pc + 1 + param) with
    | .error e => .error e
    | .ok immediate_value =>
      match ParameterMode.fromInt (Int.tmod tmp 10) with
      | .error e => .error e
      | .ok mode => .ok ⟨mode, immediate_value⟩

/-- Translation of `parse_instruction`: read `memory[pc]`, decode its low
two decimal digits (Rust truncating `%`, `Int.tmod`) as the opcode, then
decode the fixed arity of parameters of that opcode. -/
def parse_instruction (pc : Int) (memory : Memory) : Except String Instruction :=
  match memory.get pc with
  | .error e => .error e
  | .ok instruction =>
    match Opcode.fromInt (Int.tmod instruction 100) with
    | .error e => .error e
    | .ok op =>
      match op with
      | .Add =>
        match parse_parameter 0 instruction pc memory with
        | .error e => .error e
        | .ok a =>
          match parse_parameter 1 instruction pc memory with
          | .error e => .error e
          | .ok b =>
            match parse_parameter 2 instruction pc memory with
            | .error e => .error e
            | .ok c => .ok (.Add a b c)
      | .Multiply =>
        match parse_parameter 0 instruction pc memory with
        | .error e => .error e
        | .ok a =>
          match parse_parameter 1 instruction pc memory with
          | .error e => .error e
          | .ok b =>
            match parse_parameter 2 instruction pc memory with
            | .error e => .error e
            | .ok c => .ok (.Multiply a b c)
      | .Input =>
        match parse_parameter 0 instruction pc memory with
        | .error e => .error e
        | .ok a => .ok (.Input a)
      | .Output =>
        match parse_parameter 0 instruction pc memory with
        | .error e => .error e
        | .ok a => .ok (.Output a)
      | .JumpIfTrue =>
        match parse_parameter 0 instruction pc memory with
        | .error e => .error e
        | .ok a =>
          match parse_parameter 1 instruction pc memory with
          | .error e => .error e
          | .ok b => .ok (.JumpIfTrue a b)
      | .JumpIfFalse =>
        match parse_parameter 0 instruction pc memory with
        | .error e => .error e
        | .ok a =>
          match parse_parameter 1 instruction pc memory with
          | .error e => .error e
          | .ok b => .ok (.JumpIfFalse a b)
      | .LessThan =>
        match parse_parameter 0 instruction pc memory with
        | .error e => .error e
        | .ok a =>
          match parse_parameter 1 instruction pc memory with
          | .error e => .error e
          | .ok b =>
            match parse_parameter 2 instruction pc memory with
            | .error e => .error e
            | .ok c => .ok (.LessThan a b c)
      | .Equals =>
        match parse_parameter 0 instruction pc memory with
        | .error e => .error e
        | .ok a =>
          match parse_parameter 1 instruction pc memory with
          | .error e => .error e
          | .ok b =>
            match parse_parameter 2 instruction pc memory with
            | .error e => .error e
            | .ok c => .ok (.Equals a b c)
      | .Finished => .ok .Finished
      | .AdjustRelativeBase =>
        match parse_parameter 0 instruction pc memory with
        | .error e => .error e
        | .ok a => .ok (.AdjustRelativeBase a)

/-- The machine state (`struct Computer` in the source, print-only `trace`
flag omitted).  The step-counter field is called `step` in the source; it
is renamed `steps` here so that the `step` function below can keep its
source name. -/
structure Computer where
  pc : Int
  memory : Memory
  relative_base : Int
  input_buffer : List Word
  output : Option Word
  finished : Bool
  steps : Nat
deriving Repr, DecidableEq

/-- Outcome of `run` (`enum RunState` in the source). -/
inductive RunState where
  | BlockedOnInput
  | BlockedOnOutput
  | Finished
deriving Repr, DecidableEq

/-- Outcome of a single `step` (`enum StepState` in the source). -/
inductive StepState where
  | Running
  | BlockedOnInput
  | BlockedOnOutput
  | Finished
deriving Repr, DecidableEq

/-- Translation of `Computer::new`. -/
def Computer.new : Computer :=
  { pc := 0
    memory := ⟨[]⟩
    relative_base := 0
    input_buffer := []
    output := none
    finished := false
    steps := 0 }

/-- Translation of `Computer::store_to_address`: an address outside
`0..=(128 * 1024)` panics (`"Invalid address: {address}"`); otherwise the
value is written through `Memory::set` (which enforces its own, tighter
bound). -/
def Computer.store_to_address (c : Computer) (address : Int) (value : Word) :
    Except String Computer :=
  if ¬(0 ≤ address ∧ address ≤ 128 * 1024) then
    .error ("Invalid address: " ++ toString address)
  else
    match c.memory.set address value with
    | .error e => .error e
    | .ok m => .ok { c with memory := m }

/-- Translation of `Computer::store`: position mode writes at the raw
value, relative mode at `relative_base + raw value`, and immediate mode
panics (`"storing to an immediate parameter is not not implemented"`,
message verbatim from the source). -/
def Computer.store (c : Computer) (param : Parameter) (value : Word) :
    Except String Computer :=
  match param.mode with
  | .Position => c.store_to_address param.value value
  | .Immediate => .error "storing to an immediate parameter is not not implemented"
  | .RelativePosition => c.store_to_address (c.relative_base + param.value) value

/-- Translation of `Computer::load`. -/
def Computer.load (c : Computer) (param : Parameter) : Except String Word :=
  match param.mode with
  | .Position => c.memory.get param.value
  | .Immediate => .ok param.value
  | .RelativePosition => c.memory.get (c.relative_base + param.value)

/-- Translation of `Computer::poke`: a direct `Memory::set`. -/
def Computer.poke (c : Computer) (index : Int) (value : Word) :
    Except String Computer :=
  match c.memory.set index value with
  | .error e => .error e
  | .ok m => .ok { c with memory := m }

/-- Translation of `Computer::append_input`. -/
def Computer.append_input (c : Computer) (numbers : List Word) : Computer :=
  { c with input_buffer := c.input_buffer ++ numbers }

/-- Translation of `Computer::take_output`: `self.output.take()` returns
the buffered value (if any) and leaves the slot empty. -/
def Computer.take_output (c : Computer) : Option Word × Computer :=
  (c.output, { c with output := none })

/-- The instruction-dispatch `match` inside `Computer::step`, on a machine
whose step counter has already been incremented.  Each branch mirrors the
corresponding arm of the source `match instruction { .. }`. -/
def Computer.execInstr (c : Computer) (instr : Instruction) :
    Except String (StepState × Computer) :=
  match instr with
  | .Add a b dst =>
    match c.load a with
    | .error e => .error e
    | .ok va =>
      match c.load b with
      | .error e => .error e
      | .ok vb =>
        match c.store dst (va + vb) with
        | .error e => .error e
        | .ok c' => .ok (.Running, { c' with pc := c'.pc + 4 })
  | .Multiply a b dst =>
    match c.load a with
    | .error e => .error e
    | .ok va =>
      match c.load b with
      | .error e => .error e
      | .ok vb =>
        match c.store dst (va * vb) with
        | .error e => .error e
        | .ok c' => .ok (.Running, { c' with pc := c'.pc + 4 })
  | .Input a =>
    match c.input_buffer with
    | value :: rest =>
      match ({ c with input_buffer := rest }).store a value with
      | .error e => .error e
      | .ok c' => .ok (.Running, { c' with pc := c'.pc + 2 })
    | [] => .ok (.BlockedOnInput, c)
  | .Output a =>
    match c.load a with
    | .error e => .error e
    | .ok value => .ok (.BlockedOnOutput, { c with output := some value, pc := c.pc + 2 })
  | .JumpIfTrue a b =>
    match c.load a with
    | .error e => .error e
    | .ok value =>
      if value ≠ 0 then
        match c.load b with
        | .error e => .error e
        | .ok t => .ok (.Running, { c with pc := t })
      else .ok (.Running, { c with pc := c.pc + 3 })
  | .JumpIfFalse a b =>
    match c.load a with
    | .error e => .error e
    | .ok value =>
      if value = 0 then
        match c.load b with
        | .error e => .error e
        | .ok t => .ok (.Running, { c with pc := t })
      else .ok (.Running, { c with pc := c.pc + 3 })
  | .LessThan a b dst =>
    match c.load a with
    | .error e => .error e
    | .ok va =>
      match c.load b with
      | .error e => .error e
      | .ok vb =>
        match c.store dst (if va < vb then 1 else 0) with
        | .error e => .error e
        | .ok c' => .ok (.Running, { c' with pc := c'.pc + 4 })
  | .Equals a b dst =>
    match c.load a with
    | .error e => .error e
    | .ok va =>
      match c.load b with
      | .error e => .error e
      | .ok vb =>
        match c.store dst (if va = vb then 1 else 0) with
        | .error e => .error e
        | .ok c' => .ok (.Running, { c' with pc := c'.pc + 4 })
  | .AdjustRelativeBase a =>
    match c.load a with
    | .error e => .error e
    | .ok value =>
      .ok (.Running, { c with relative_base := c.relative_base + value, pc := c.pc + 2 })
  | .Finished => .ok (.Finished, { c with finished := true })

/-- Translation of `Computer::step`: an already-buffered output suspends
immediately (before the step counter is touched); otherwise the counter is
incremented, panicking (`"Too many steps"`) once it exceeds 100000000; then
the instruction at `pc` is decoded (a decode error aborts via
`.expect("parse instruction failed")`) and executed. -/
def Computer.step (c : Computer) : Except String (StepState × Computer) :=
  if c.output.isSome then .ok (.BlockedOnOutput, c)
  else
    let c1 : Computer := { c with steps := c.steps + 1 }
    if 100000000 < c1.steps then .error "Too many steps"
    else
      match parse_instruction c1.pc c1.memory with
      | .error e => .error ("parse instruction failed: " ++ e)
      | .ok instruction => c1.execInstr instruction

/-- Rust `str::split(',')` on a character list: splits at every comma;
an empty text yields a single empty token. -/
def splitCommas : List Char → List (List Char)
  | [] => [[]]
  | ch :: rest =>
    if ch = ',' then [] :: splitCommas rest
    else
      match splitCommas rest with
      | [] => [[ch]]
      | tok :: toks => (ch :: tok) :: toks

/-- Rust `str::trim_end` on a character list: drop trailing whitespace. -/
def trimEndChars (cs : List Char) : List Char :=
  (cs.reverse.dropWhile Char.isWhitespace).reverse

/-- Digit accumulation for `i64::from_str`: every character must be a
decimal digit and at least one digit must be present.  (Rust additionally
rejects values overflowing `i64`; the claims only exercise small
literals, where the two agree.) -/
def parseNatDigits (cs : List Char) (err : String) : Except String Nat :=
  match cs with
  | [] => .error err
  | _ =>
    cs.foldlM
      (fun acc ch =>
        if ch.isDigit then .ok (acc * 10 + (ch.toNat - 48)) else .error err)
      0

/-- Rust `i64::from_str`: an optional sign followed by decimal digits. -/
def parseIntToken (cs : List Char) (err : String) : Except String Int :=
  match cs with
  | '-' :: rest =>
    match parseNatDigits rest err with
    | .error e => .error e
    | .ok n => .ok (-(n : Int))
  | '+' :: rest =>
    match parseNatDigits rest err with
    | .error e => .error e
    | .ok n => .ok (n : Int)
  | _ =>
    match parseNatDigits cs err with
    | .error e => .error e
    | .ok n => .ok (n : Int)

/-- Translation of `Computer::parse`: trim trailing whitespace, split the
text at commas, parse each token as an `i64` (a failing token panics,
`"Invalid numerical string: .."`), and push each value onto memory in
order. -/
def Computer.parse (text : String) : Except String Computer :=
  (splitCommas (trimEndChars text.data)).foldlM
    (fun c tok =>
      match parseIntToken tok ("Invalid numerical string: " ++ String.mk tok) with
      | .error e => .error e
      | .ok n => .ok { c with memory := c.memory.push n })
    Computer.new

/-- Translation of `Computer::run`: loop `step` until it returns something
other than `Running`.  The source loop has no bound; `fuel` is the
embedding's inductive bound on the number of iterations inspected, with
`.error "out of fuel"` marking an exhausted bound (never a behavior of the
source). -/
def Computer.run (fuel : Nat) (c : Computer) : Except String (RunState × Computer) :=
  match fuel with
  | 0 => .error "out of fuel"
  | fuel + 1 =>
    match c.step with
    | .error e => .error e
    | .ok (.Running, c') => Computer.run fuel c'
    | .ok (.BlockedOnInput, c') => .ok (.BlockedOnInput, c')
    | .ok (.BlockedOnOutput, c') => .ok (.BlockedOnOutput, c')
    | .ok (.Finished, c') => .ok (.Finished, c')

/-- The loop of `Computer::read_ascii_string`, accumulating into `out`.
`self.output.unwrap()` and `self.take_output().unwrap()` of the source are
the `some` value of the freshly produced output (the `.unwrap()` cannot
fail there: the machine just returned `BlockedOnOutput`); `v as u8 as char`
for `0 <= v < 128` is `Char.ofNat v.toNat`.  `fuel` bounds the unbounded
source loop as in `run`. -/
def Computer.read_ascii_loop (fuel : Nat) (c : Computer) (out : String) :
    Except String (String × Computer) :=
  match fuel with
  | 0 => .error "out of fuel"
  | fuel + 1 =>
    match c.step with
    | .error e => .error e
    | .ok (.Running, c') => Computer.read_ascii_loop fuel c' out
    | .ok (.BlockedOnInput, c') => .ok (out, c')
    | .ok (.Finished, c') => .ok (out, c')
    | .ok (.BlockedOnOutput, c') =>
      match c'.output with
      | none => .error "called Option::unwrap() on a None value"
      | some v =>
        if 0 ≤ v ∧ v < 128 then
          Computer.read_ascii_loop fuel { c' with output := none }
            (out.push (Char.ofNat v.toNat))
        else .ok (out, c')

/-- Translation of `Computer::read_ascii_string`: run the accumulation
loop starting from the empty string and return `some` of the result when
it is nonempty, `none` otherwise. -/
def Computer.read_ascii_string (fuel : Nat) (c : Computer) :
    Except String (Option String × Computer) :=
  match Computer.read_ascii_loop fuel c "" with
  | .error e => .error e
  | .ok (out, c') => .ok (if out ≠ "" then some out else none, c')

/-- The driver loop of the source's `run_program` test helper: run to the
next non-`Running` outcome, panic on input starvation
(`"Input exhausted!"`), collect each produced output, stop at `Finished`. -/
def run_driver (fuel : Nat) (c : Computer) (output : List Word) :
    Except String (List Word) :=
  match fuel with
  | 0 => .error "out of fuel"
  | fuel + 1 =>
    match Computer.run fuel c with
    | .error e => .error e
    | .ok (.BlockedOnInput, _) => .error "Input exhausted!"
    | .ok (.BlockedOnOutput, c') =>
      match c'.take_output with
      | (some w, c'') => run_driver fuel c'' (output ++ [w])
      | (none, _) => .error "called Option::unwrap() on a None value"
    | .ok (.Finished, _) => .ok output

/-- Translation of the source's `run_program` test helper: parse the
program text, append the single input value, drive the machine to
completion collecting every output value in order. -/
def run_program (fuel : Nat) (text : String) (input_number : Word) :
    Except String (List Word) :=
  match Computer.parse text with
  | .error e => .error e
  | .ok c0 => run_driver fuel (c0.append_input [input_number]) []

/-!
Helper lemmas about lists, used to reason extensionally about the
zero-filling growth of `Memory.set`.
-/

theorem list_getD_set_self (l : List Word) (n : Nat) (v : Word) (h : n < l.length) :
    (l.set n v).getD n 0 = v := by
  induction l generalizing n with
  | nil => simp at h
  | cons a t ih =>
    cases n with
    | zero => simp
    | succ m => simpa using ih m (by simpa using h)

theorem list_getD_set_ne (l : List Word) (n k : Nat) (v : Word) (h : n ≠ k) :
    (l.set k v).getD n 0 = l.getD n 0 := by
  induction l generalizing n k with
  | nil => simp
  | cons a t ih =>
    cases k with
    | zero =>
      cases n with
      | zero => exact absurd rfl h
      | succ m => simp
    | succ j =>
      cases n with
      | zero => simp
      | succ m => simpa using ih m j (by omega)

theorem list_getD_replicate_zero (k n : Nat) :
    (List.replicate k (0 : Word)).getD n 0 = 0 := by
  induction k generalizing n with
  | zero => simp
  | succ j ih =>
    cases n with
    | zero => simp
    | succ m => simp [List.replicate_succ, ih m]

theorem list_getD_append_replicate_zero (l : List Word) (k n : Nat) :
    (l ++ List.replicate k (0 : Word)).getD n 0 = l.getD n 0 := by
  induction l generalizing n with
  | nil => simp [list_getD_replicate_zero k n]
  | cons a t ih =>
    cases n with
    | zero => simp
    | succ m => simpa using ih m

theorem list_getD_len_le (l : List Word) (n : Nat) (h : l.length ≤ n) :
    l.getD n 0 = 0 := by
  induction l generalizing n with
  | nil => simp
  | cons a t ih =>
    cases n with
    | zero => simp at h
    | succ m => simpa using ih m (by simpa using h)

/-!
Basic lemmas about `Memory.get` and `Memory.set`.
-/

/-- On a non-negative index, `Memory.get` is exactly `getD` with default
zero: the beyond-extent branch and the default agree. -/
theorem Memory.get_nonneg (m : Memory) (b : Int) (hb : 0 ≤ b) :
    m.get b = .ok (m.vec.getD b.toNat 0) := by
  unfold Memory.get
  rw [if_neg (by omega)]
  by_cases hlen : (m.vec.length : Int) ≤ b
  · rw [if_pos hlen, list_getD_len_le m.vec b.toNat (by omega)]
  · rw [if_neg hlen]

theorem Memory.get_neg (m : Memory) (b : Int) (hb : b < 0) :
    m.get b = .error ("invalid index: " ++ toString b) := by
  unfold Memory.get
  rw [if_pos hb]

theorem Memory.set_neg (m : Memory) (b : Int) (v : Word) (hb : b < 0) :
    m.set b v = .error ("invalid index: " ++ toString b) := by
  unfold Memory.set
  rw [if_pos (by omega)]

theorem Memory.set_too_big (m : Memory) (b : Int) (v : Word) (hb : 100000 ≤ b) :
    m.set b v = .error ("invalid index: " ++ toString b) := by
  unfold Memory.set
  rw [if_pos (by omega)]

theorem Memory.set_ok_inv (m m' : Memory) (a : Int) (v : Word)
    (h : m.set a v = .ok m') :
    0 ≤ a ∧ a < 100000 ∧
      m'.vec = (m.vec ++ List.replicate (a.toNat + 1 - m.vec.length) 0).set a.toNat v := by
  unfold Memory.set at h
  split at h
  · exact absurd h (by simp)
  · rename_i hcond
    refine ⟨by omega, by omega, ?_⟩
    cases h
    rfl

theorem Memory.set_in_range (m : Memory) (a : Int) (v : Word)
    (h0 : 0 ≤ a) (h1 : a < 100000) :
    m.set a v =
      .ok ⟨(m.vec ++ List.replicate (a.toNat + 1 - m.vec.length) 0).set a.toNat v⟩ := by
  unfold Memory.set
  rw [if_neg (by omega)]

/-- Reading back the target of a successful `Memory.set` yields the stored
value. -/
theorem Memory.get_set_self (m m' : Memory) (a : Int) (v : Word)
    (h : m.set a v = .ok m') : m'.get a = .ok v := by
  obtain ⟨h0, h1, hvec⟩ := Memory.set_ok_inv m m' a v h
  rw [Memory.get_nonneg m' a h0, hvec]
  have hlen : a.toNat < ((m.vec ++ List.replicate (a.toNat + 1 - m.vec.length) 0)).length := by
    simp [List.length_append, List.length_replicate]
    omega
  rw [list_getD_set_self _ _ _ hlen]

/-- A successful `Memory.set` leaves every other read unchanged. -/
theorem Memory.get_set_other (m m' : Memory) (a b : Int) (v : Word)
    (h : m.set a v = .ok m') (hne : b ≠ a) : m'.get b = m.get b := by
  obtain ⟨h0, h1, hvec⟩ := Memory.set_ok_inv m m' a v h
  by_cases hb : 0 ≤ b
  · rw [Memory.get_nonneg m' b hb, Memory.get_nonneg m b hb, hvec]
    rw [list_getD_set_ne _ _ _ _ (by omega)]
    rw [list_getD_append_replicate_zero]
  · rw [Memory.get_neg m' b (by omega), Memory.get_neg m b (by omega)]

/-- A successful `Memory.set` grows memory exactly far enough to cover the
target index. -/
theorem Memory.length_set (m m' : Memory) (a : Int) (v : Word)
    (h : m.set a v = .ok m') :
    m'.vec.length = max m.vec.length (a.toNat + 1) := by
  obtain ⟨h0, h1, hvec⟩ := Memory.set_ok_inv m m' a v h
  rw [hvec]
  simp [List.length_append, List.length_replicate]
  omega

/-!
Frame and inversion lemmas about `Computer.store`, `Computer.execInstr`
and `Computer.step`.
-/

/-- A successful `store_to_address` changes only the memory. -/
theorem Computer.store_to_address_ok_inv (c c' : Computer) (a : Int) (v : Word)
    (h : c.store_to_address a v = .ok c') : ∃ m, c' = { c with memory := m } := by
  unfold Computer.store_to_address at h
  split at h
  · exact absurd h (by simp)
  · split at h
    · exact absurd h (by simp)
    · cases h
      exact ⟨_, rfl⟩

/-- A successful `store` changes only the memory. -/
theorem Computer.store_ok_inv (c c' : Computer) (p : Parameter) (v : Word)
    (h : c.store p v = .ok c') : ∃ m, c' = { c with memory := m } := by
  obtain ⟨mode, value⟩ := p
  cases mode with
  | Position => exact Computer.store_to_address_ok_inv c c' value v h
  | Immediate => exact absurd h (by simp [Computer.store])
  | RelativePosition =>
    exact Computer.store_to_address_ok_inv c c' (c.relative_base + value) v h

/-- Field-wise consequences of `Computer.store_ok_inv`. -/
theorem Computer.store_ok_steps (c c' : Computer) (p : Parameter) (v : Word)
    (h : c.store p v = .ok c') :
    c'.steps = c.steps ∧ c'.pc = c.pc ∧ c'.output = c.output ∧
      c'.input_buffer = c.input_buffer ∧ c'.relative_base = c.relative_base ∧
      c'.finished = c.finished := by
  obtain ⟨m, rfl⟩ := Computer.store_ok_inv c c' p v h
  exact ⟨rfl, rfl, rfl, rfl, rfl, rfl⟩

/-- Executing any single instruction never touches the step counter. -/
theorem Computer.execInstr_ok_steps (c : Computer) (i : Instruction)
    (s : StepState) (c' : Computer) (h : c.execInstr i = .ok (s, c')) :
    c'.steps = c.steps := by
  cases i <;> simp only [Computer.execInstr] at h <;> (repeat' split at h) <;>
    simp only [Except.ok.injEq, Prod.mk.injEq, reduceCtorEq] at h <;>
      obtain ⟨hs, rfl⟩ := h <;>
    first
      | rfl
      | (rename_i heq _
         exact (Computer.store_ok_steps _ _ _ _ heq).1)
      | (rename_i heq
         exact (Computer.store_ok_steps _ _ _ _ heq).1)

/-- The only instruction whose execution reports `Finished` is the halt
instruction, and it only sets the `finished` flag. -/
theorem Computer.execInstr_finished_inv (c : Computer) (i : Instruction)
    (c' : Computer) (h : c.execInstr i = .ok (.Finished, c')) :
    i = .Finished ∧ c' = { c with finished := true } := by
  cases i <;> simp only [Computer.execInstr] at h <;> (repeat' split at h) <;>
    simp_all

/-- With an output already buffered, `step` suspends immediately, leaving
the machine untouched. -/
theorem Computer.step_buffered (c : Computer) (v : Word) (h : c.output = some v) :
    c.step = .ok (.BlockedOnOutput, c) := by
  unfold Computer.step
  rw [if_pos (by simp [h])]

/-- With no output buffered and the counter at the ceiling, `step`
panics. -/
theorem Computer.step_ceiling (c : Computer) (h : c.output = none)
    (h2 : 100000000 ≤ c.steps) : c.step = .error "Too many steps" := by
  unfold Computer.step
  rw [if_neg (by simp [h])]
  dsimp only
  rw [if_pos (by omega)]

/-- With no output buffered and the counter below the ceiling, `step`
decodes and executes the instruction at `pc` on the counter-incremented
machine. -/
theorem Computer.step_normal (c : Computer) (h : c.output = none)
    (h2 : c.steps < 100000000) :
    c.step =
      match parse_instruction c.pc c.memory with
      | .error e => .error ("parse instruction failed: " ++ e)
      | .ok instruction => ({ c with steps := c.steps + 1 }).execInstr instruction := by
  unfold Computer.step
  rw [if_neg (by simp [h])]
  dsimp only
  rw [if_neg (by omega)]

/-- Inversion of a step that reported `Finished`: the machine had no
buffered output, was below the step ceiling, sits on a halt instruction,
and only its `finished` flag and step counter changed. -/
theorem Computer.step_ok_finished_inv (c c' : Computer)
    (h : c.step = .ok (.Finished, c')) :
    c.output = none ∧ c.steps < 100000000 ∧
      parse_instruction c.pc c.memory = .ok .Finished ∧
      c' = { c with steps := c.steps + 1, finished := true } := by
  cases hout : c.output with
  | some v =>
    rw [Computer.step_buffered c v hout] at h
    simp at h
  | none =>
    by_cases hst : c.steps < 100000000
    · rw [Computer.step_normal c hout hst] at h
      cases hpi : parse_instruction c.pc c.memory with
      | error e =>
        rw [hpi] at h
        simp at h
      | ok instr =>
        rw [hpi] at h
        obtain ⟨hi, hc⟩ := Computer.execInstr_finished_inv _ _ _ h
        exact ⟨rfl, hst, by rw [hi], by simpa [hout] using hc⟩
    · rw [Computer.step_ceiling c hout (by omega)] at h
      simp at h

/-- Stepping a machine that sits on a halt instruction reports `Finished`
and changes nothing but the `finished` flag and the step counter. -/
theorem Computer.step_at_halt (c : Computer) (h : c.output = none)
    (h2 : c.steps < 100000000)
    (hpi : parse_instruction c.pc c.memory = .ok .Finished) :
    c.step = .ok (.Finished, { c with steps := c.steps + 1, finished := true }) := by
  rw [Computer.step_normal c h h2, hpi]
  rfl

/-- The output branch of `execInstr`: buffer the loaded value, advance pc
by 2, suspend. -/
theorem Computer.execInstr_output (c : Computer) (p : Parameter) (w : Word)
    (hload : c.load p = .ok w) :
    c.execInstr (.Output p) =
      .ok (.BlockedOnOutput, { c with output := some w, pc := c.pc + 2 }) := by
  simp only [Computer.execInstr]
  rw [hload]

/-- The input branch of `execInstr` on an empty queue: suspend with the
machine untouched. -/
theorem Computer.execInstr_input_empty (c : Computer) (p : Parameter)
    (h : c.input_buffer = []) :
    c.execInstr (.Input p) = .ok (.BlockedOnInput, c) := by
  simp only [Computer.execInstr]
  rw [h]

/-- The input branch of `execInstr` on a non-empty queue: pop the front,
store it through the operand, advance pc by 2. -/
theorem Computer.execInstr_input_cons (c c' : Computer) (p : Parameter)
    (v : Word) (rest : List Word) (h : c.input_buffer = v :: rest)
    (hstore : ({ c with input_buffer := rest }).store p v = .ok c') :
    c.execInstr (.Input p) = .ok (.Running, { c' with pc := c'.pc + 2 }) := by
  simp only [Computer.execInstr, h, hstore]

/-!
Concrete machines used as inputs of witnesses and counterexamples.  Each
is the parse result of the program text named in its doc comment.
-/

/-- The machine loaded from program text `"99"`: halt immediately. -/
def haltStart : Computer :=
  { pc := 0, memory := ⟨[99]⟩, relative_base := 0, input_buffer := [],
    output := none, finished := false, steps := 0 }

/-- `haltStart` after its first step: the `finished` flag is set. -/
def haltDone : Computer :=
  { haltStart with finished := true, steps := 1 }

/-- The machine loaded from program text `"3,0,99"`: read one input, then
halt. -/
def inputStart : Computer :=
  { pc := 0, memory := ⟨[3, 0, 99]⟩, relative_base := 0, input_buffer := [],
    output := none, finished := false, steps := 0 }

/-- The machine loaded from program text `"104,5,99"`: output the
immediate value 5, then halt. -/
def outputStart : Computer :=
  { pc := 0, memory := ⟨[104, 5, 99]⟩, relative_base := 0, input_buffer := [],
    output := none, finished := false, steps := 0 }

/-- The machine loaded from program text `"104,7,99"`: output the ASCII
BEL value 7 — a non-printable ASCII character — then halt. -/
def belStart : Computer :=
  { pc := 0, memory := ⟨[104, 7, 99]⟩, relative_base := 0, input_buffer := [],
    output := none, finished := false, steps := 0 }

/-- The machine loaded from program text `"104,200,99"`: output the
out-of-ASCII-range value 200, then halt. -/
def bigStart : Computer :=
  { pc := 0, memory := ⟨[104, 200, 99]⟩, relative_base := 0, input_buffer := [],
    output := none, finished := false, steps := 0 }

/-!
The claims.
-/

/-- C1, counterexample: stepping a machine whose `finished` flag is set
(here: the machine that `step` just returned `Finished` for, on the
program `99`) is not a fatal fault: `step` succeeds again, so the claim
that this is an unrecoverable host programming error is false on the
code. -/
theorem step_finished_machine_recoverable :
    haltStart.step = .ok (.Finished, haltDone) ∧ haltDone.finished = true ∧
      haltDone.step.toOption.isSome = true := by
  decide

/-- C1, amended: once `step` has returned `Finished` the flag is set and
no further execution happens, but the misuse is silently tolerated rather
than aborted: stepping the finished machine (below the step ceiling)
re-decodes the halt instruction and returns `Finished` again, with pc,
memory, relative base, input queue and output slot unchanged and only the
internal step counter incremented. -/
theorem step_after_finished_returns_finished (c c' : Computer)
    (h : c.step = .ok (.Finished, c')) (hceil : c'.steps < 100000000) :
    c'.finished = true ∧
      c'.step = .ok (.Finished, { c' with steps := c'.steps + 1 }) := by
  obtain ⟨hout, hst, hpi, rfl⟩ := Computer.step_ok_finished_inv c c' h
  refine ⟨rfl, ?_⟩
  have := Computer.step_at_halt
    { c with steps := c.steps + 1, finished := true } hout hceil hpi
  simpa using this

/-- C1, witness for the amended theorem at the halted `99` machine. -/
theorem step_after_finished_returns_finished_witness :
    haltDone.finished = true ∧
      haltDone.step = .ok (.Finished, { haltDone with steps := 2 }) :=
  step_after_finished_returns_finished haltStart haltDone (by decide) (by decide)

/-- C2: at most one output value is ever buffered.  A `step` issued while
an output is already buffered returns `BlockedOnOutput` with the machine
untouched (no instruction executed or consumed, not even the step counter
moves), and executing an output instruction stores `load(a)` in the empty
output slot, advances pc by 2, and suspends with `BlockedOnOutput`. -/
theorem output_buffering_protocol (c : Computer) :
    (∀ v, c.output = some v → c.step = .ok (.BlockedOnOutput, c)) ∧
    (∀ p w, c.output = none → c.steps < 100000000 →
      parse_instruction c.pc c.memory = .ok (.Output p) → c.load p = .ok w →
      c.step = .ok (.BlockedOnOutput,
        { c with output := some w, pc := c.pc + 2, steps := c.steps + 1 })) := by
  refine ⟨fun v hv => Computer.step_buffered c v hv, ?_⟩
  intro p w h h2 hpi hload
  rw [Computer.step_normal c h h2, hpi]
  dsimp only
  rw [Computer.execInstr_output { c with steps := c.steps + 1 } p w hload]

/-- C2, witness: the buffered-output guard on a machine holding output 7,
and the output instruction of the `104,5,99` machine. -/
theorem output_buffering_protocol_witness :
    ({ outputStart with output := some 7 } : Computer).step =
        .ok (.BlockedOnOutput, { outputStart with output := some 7 }) ∧
      outputStart.step = .ok (.BlockedOnOutput,
        { outputStart with output := some 5, pc := 2, steps := 1 }) :=
  ⟨(output_buffering_protocol _).1 7 (by decide),
   (output_buffering_protocol outputStart).2 ⟨.Immediate, 5⟩ 5 (by decide)
     (by decide) (by decide) (by decide)⟩

/-- C3, counterexample: the decode fault for the invalid instruction 155
at pc 0 is reported as `Invalid opcode: 55` — the message carries neither
the claimed `invalid opcode at pc=<pc>` form nor the raw instruction
value 155, only the residue modulo 100. -/
theorem invalid_opcode_message_lacks_pc :
    parse_instruction 0 ⟨[155]⟩ = .error "Invalid opcode: 55" ∧
      List.isPrefixOf "invalid opcode at pc=".data "Invalid opcode: 55".data = false ∧
      ¬ List.IsInfix "155".data "Invalid opcode: 55".data := by
  decide

/-- C3, amended: decode takes the opcode as `memory[pc]` tmod 100;
exactly 1–9 and 99 decode successfully, and any other opcode value is a
fatal decode fault, whose message reports the offending opcode residue
(`Invalid opcode: <op>`) but not the failing pc and not the raw
instruction value. -/
theorem opcode_decode_characterization (pc0 : Int) (m : Memory) (v : Word)
    (hv : m.get pc0 = .ok v) :
    ((Opcode.fromInt (Int.tmod v 100)).toOption.isSome = true ↔
      Int.tmod v 100 ∈ ([1, 2, 3, 4, 5, 6, 7, 8, 9, 99] : List Int)) ∧
    (∀ e, Opcode.fromInt (Int.tmod v 100) = .error e →
      parse_instruction pc0 m = .error e ∧
        e = "Invalid opcode: " ++ toString (Int.tmod v 100)) := by
  constructor
  · unfold Opcode.fromInt
    split_ifs <;> simp_all [Except.toOption]
  · intro e he
    constructor
    · unfold parse_instruction
      rw [hv]
      dsimp only
      rw [he]
    · unfold Opcode.fromInt at he
      split_ifs at he
      simp_all

/-- C3, witness for the amended theorem at instruction 155 at pc 0. -/
theorem opcode_decode_characterization_witness :
    ((Opcode.fromInt (Int.tmod 155 100)).toOption.isSome = true ↔
        Int.tmod (155 : Int) 100 ∈ ([1, 2, 3, 4, 5, 6, 7, 8, 9, 99] : List Int)) ∧
      (parse_instruction 0 ⟨[155]⟩ = .error "Invalid opcode: 55" ∧
        "Invalid opcode: 55" = "Invalid opcode: " ++ toString (Int.tmod (155 : Int) 100)) :=
  ⟨(opcode_decode_characterization 0 ⟨[155]⟩ 155 (by decide)).1,
   (opcode_decode_characterization 0 ⟨[155]⟩ 155 (by decide)).2
     "Invalid opcode: 55" (by decide)⟩

/-- C4, counterexample: on the `3,0,99` machine with an empty input
queue, `step` returns `BlockedOnInput` but the machine is not left
unmutated — the internal step counter advanced — so the claim that no
state is mutated is false on the code. -/
theorem blocked_input_step_counter_mutation :
    inputStart.step = .ok (.BlockedOnInput, { inputStart with steps := 1 }) ∧
      ({ inputStart with steps := 1 } : Computer) ≠ inputStart := by
  decide

/-- C4, amended: on an input instruction with an empty queue, `step`
returns `BlockedOnInput` with pc, memory, relative base, queue and output
slot untouched (only the internal step counter advances), so the same
instruction is re-attempted next step; with a non-empty queue it pops the
front value, stores it through the sole operand, and advances pc by 2. -/
theorem input_step_characterization (c : Computer) (p : Parameter)
    (h0 : c.output = none) (h1 : c.steps < 100000000)
    (h2 : parse_instruction c.pc c.memory = .ok (.Input p)) :
    (c.input_buffer = [] →
      c.step = .ok (.BlockedOnInput, { c with steps := c.steps + 1 })) ∧
    (∀ v rest, c.input_buffer = v :: rest →
      ∀ c', ({ c with input_buffer := rest, steps := c.steps + 1 }).store p v = .ok c' →
        c.step = .ok (.Running, { c' with pc := c'.pc + 2 })) := by
  constructor
  · intro hbuf
    rw [Computer.step_normal c h0 h1, h2]
    dsimp only
    rw [Computer.execInstr_input_empty { c with steps := c.steps + 1 } p hbuf]
  · intro v rest hbuf c' hstore
    rw [Computer.step_normal c h0 h1, h2]
    dsimp only
    rw [Computer.execInstr_input_cons { c with steps := c.steps + 1 } c' p v rest
      hbuf hstore]

/-- C4, witness for the amended theorem: the `3,0,99` machine blocked on
an empty queue, and the same machine consuming the single queued value
7. -/
theorem input_step_characterization_witness :
    inputStart.step = .ok (.BlockedOnInput, { inputStart with steps := 1 }) ∧
      (inputStart.append_input [7]).step = .ok (.Running,
        { pc := 2, memory := ⟨[7, 0, 99]⟩, relative_base := 0, input_buffer := [],
          output := none, finished := false, steps := 1 }) :=
  ⟨(input_step_characterization inputStart ⟨.Position, 0⟩ (by decide) (by decide)
      (by decide)).1 rfl,
   (input_step_characterization (inputStart.append_input [7]) ⟨.Position, 0⟩
      (by decide) (by decide) (by decide)).2 7 [] rfl
     { pc := 0, memory := ⟨[7, 0, 99]⟩, relative_base := 0, input_buffer := [],
       output := none, finished := false, steps := 1 } (by decide)⟩

/-- C5, counterexample: 100000 is a non-negative address beyond the
extent of the empty memory, yet writing there is a fatal fault instead of
growing the sequence, so the claim that every non-negative
beyond-the-extent write grows and stores is false on the code. -/
theorem set_beyond_cap_refuses_growth :
    (0 : Int) ≤ 100000 ∧
      (⟨[]⟩ : Memory).set 100000 7 = .error "invalid index: 100000" := by
  decide

/-- C5, amended: reads at negative addresses fault, reads at or beyond
the extent give zero (without mutating anything — `get` is read-only by
shape), writes at addresses 0 ≤ a < 100000 succeed, growing the sequence
with zero fill exactly up to and including the target index and storing
the value there while leaving every other address's contents unchanged,
writes at negative addresses fault, and writes at addresses ≥ 100000 also
fault (the implementation's write cap). -/
theorem memory_get_set_characterization (m : Memory) (a : Int) (v : Word) :
    (a < 0 → m.get a = .error ("invalid index: " ++ toString a) ∧
      m.set a v = .error ("invalid index: " ++ toString a)) ∧
    (0 ≤ a → (m.vec.length : Int) ≤ a → m.get a = .ok 0) ∧
    (0 ≤ a → a < 100000 →
      ∃ m', m.set a v = .ok m' ∧ m'.get a = .ok v ∧
        (∀ b, b ≠ a → m'.get b = m.get b) ∧
        m'.vec.length = max m.vec.length (a.toNat + 1)) ∧
    (100000 ≤ a → m.set a v = .error ("invalid index: " ++ toString a)) := by
  refine ⟨fun ha => ⟨Memory.get_neg m a ha, Memory.set_neg m a v ha⟩, ?_, ?_,
    fun ha => Memory.set_too_big m a v ha⟩
  · intro h0 hlen
    rw [Memory.get_nonneg m a h0, list_getD_len_le _ _ (by omega)]
  · intro h0 h1
    have hset := Memory.set_in_range m a v h0 h1
    exact ⟨_, hset, Memory.get_set_self m _ a v hset,
      fun b hb => Memory.get_set_other m _ a b v hset hb,
      Memory.length_set m _ a v hset⟩

/-- C5, witness for the amended theorem on the memory `[1, 2]`: negative
read and write fault, a beyond-extent read gives zero, and the capped
write at 100000 faults. -/
theorem memory_get_set_characterization_witness :
    ((⟨[1, 2]⟩ : Memory).get (-3) = .error "invalid index: -3" ∧
        (⟨[1, 2]⟩ : Memory).set (-3) 9 = .error "invalid index: -3") ∧
      (⟨[1, 2]⟩ : Memory).get 5 = .ok 0 ∧
      (⟨[1, 2]⟩ : Memory).set 100000 9 = .error "invalid index: 100000" :=
  ⟨(memory_get_set_characterization ⟨[1, 2]⟩ (-3) 9).1 (by decide),
   (memory_get_set_characterization ⟨[1, 2]⟩ 5 9).2.1 (by decide) (by decide),
   (memory_get_set_characterization ⟨[1, 2]⟩ 100000 9).2.2.2 (by decide)⟩

/-- C6, counterexample: on the `104,7,99` machine, `read_ascii_string`
accumulates the output value 7 (ASCII BEL), a character outside the
printable ASCII range (which starts at 32), instead of stopping at it —
so the claim that exactly the printable-range values are accumulated is
false on the code. -/
theorem read_ascii_accumulates_nonprintable :
    Computer.read_ascii_string 10 belStart =
        .ok (some (String.mk [Char.ofNat 7]),
          { belStart with pc := 2, finished := true, steps := 2 }) ∧
      (7 : Int) < 32 := by
  decide

/-- C6, amended: the accumulation loop of `read_ascii_string` keeps
stepping through `Running`; it stops at `Finished` or `BlockedOnInput`;
a produced output value in the full ASCII range 0 ≤ v < 128 (not merely
the printable range) is consumed and appended and the loop continues; and
the first out-of-range output value stops the loop without being
consumed — it remains buffered in the returned machine.  The final
conjunct ties the loop to `read_ascii_string` itself, which wraps the
accumulated string in `some` exactly when it is nonempty. -/
theorem read_ascii_loop_characterization (fuel : Nat) (c c' : Computer)
    (out : String) (v : Word) :
    (c.step = .ok (.Finished, c') →
      Computer.read_ascii_loop (fuel + 1) c out = .ok (out, c')) ∧
    (c.step = .ok (.BlockedOnInput, c') →
      Computer.read_ascii_loop (fuel + 1) c out = .ok (out, c')) ∧
    (c.step = .ok (.BlockedOnOutput, c') → c'.output = some v →
      ((0 ≤ v ∧ v < 128) →
        Computer.read_ascii_loop (fuel + 1) c out =
          Computer.read_ascii_loop fuel { c' with output := none }
            (out.push (Char.ofNat v.toNat))) ∧
      (¬(0 ≤ v ∧ v < 128) →
        Computer.read_ascii_loop (fuel + 1) c out = .ok (out, c') ∧
          c'.output = some v)) ∧
    (∀ s c'', Computer.read_ascii_loop fuel c "" = .ok (s, c'') →
      Computer.read_ascii_string fuel c = .ok (if s ≠ "" then some s else none, c'')) := by
  refine ⟨?_, ?_, ?_, ?_⟩
  · intro hstep
    simp only [Computer.read_ascii_loop, hstep]
  · intro hstep
    simp only [Computer.read_ascii_loop, hstep]
  · intro hstep hout
    constructor
    · intro hv
      simp only [Computer.read_ascii_loop, hstep, hout]
      rw [if_pos hv]
    · intro hv
      refine ⟨?_, hout⟩
      simp only [Computer.read_ascii_loop, hstep, hout]
      rw [if_neg hv]
  · intro s c'' hloop
    unfold Computer.read_ascii_string
    rw [hloop]

/-- C6, witness: on the `104,200,99` machine the loop stops at the
out-of-range output value 200, which stays buffered in the returned
machine. -/
theorem read_ascii_loop_characterization_witness :
    Computer.read_ascii_loop 10 bigStart "" =
        .ok ("", { bigStart with output := some 200, pc := 2, steps := 1 }) ∧
      ({ bigStart with output := some 200, pc := 2, steps := 1 } : Computer).output =
        some 200 :=
  ((read_ascii_loop_characterization 9 bigStart
      { bigStart with output := some 200, pc := 2, steps := 1 } "" 200).2.2.1
    (by decide) (by decide)).2 (by decide)

/-- C7: `take_output` removes and returns the buffered output value when
one is present, clearing the slot (so the next `step` proceeds past the
producing instruction); when nothing is buffered there is no value to
return — the result carries `none` and the machine is unchanged. -/
theorem take_output_spec (c : Computer) :
    (∀ v, c.output = some v → c.take_output = (some v, { c with output := none })) ∧
    (c.output = none → c.take_output = (none, c)) := by
  constructor
  · intro v hv
    unfold Computer.take_output
    rw [hv]
  · intro h
    obtain ⟨pc, mem, rb, ib, out, fin, st⟩ := c
    cases h
    rfl

/-- C7, witness: taking the buffered 3 clears the slot; taking from a
fresh machine returns nothing and changes nothing. -/
theorem take_output_spec_witness :
    ({ Computer.new with output := some 3 } : Computer).take_output =
        (some 3, Computer.new) ∧
      Computer.new.take_output = (none, Computer.new) :=
  ⟨(take_output_spec _).1 3 rfl, (take_output_spec _).2 rfl⟩

/-- C8: for every word value v, the machine parsed from the program text
`3,0,4,0,99` and fed the single input v produces output exactly `[v]`
(one suspension on output, no other outputs) and then reports
`Finished`. -/
theorem echo_program_roundtrip (v : Word) :
    run_program 20 "3,0,4,0,99" v = .ok [v] := by
  rfl

/-- C8, witness at the input value 42 (the repository's own test
value). -/
theorem echo_program_roundtrip_witness :
    run_program 20 "3,0,4,0,99" 42 = .ok [42] :=
  echo_program_roundtrip 42

/-- C9: every memory write whose target address is at or above 100000 is
a fatal fault — through `poke` and through `store` in position or
relative mode, both of which funnel into `store_to_address` — even though
`store_to_address`'s own bound admits addresses up to 131072: for
100000 ≤ a ≤ 131072 the fault comes from `Memory.set` (message
`invalid index: ..`), the address having passed `store_to_address`'s
check, and only above 131072 does `store_to_address`'s own check fire
(message `Invalid address: ..`) — the two bounds checks are mutually
inconsistent, and writable memory is effectively capped at
0..99999. -/
theorem write_cap_inconsistency (c : Computer) (a : Int) (v : Word)
    (ha : 100000 ≤ a) :
    c.poke a v = .error ("invalid index: " ++ toString a) ∧
    (a ≤ 128 * 1024 → c.store_to_address a v = .error ("invalid index: " ++ toString a)) ∧
    (128 * 1024 < a → c.store_to_address a v = .error ("Invalid address: " ++ toString a)) ∧
    (∀ p : Parameter, p.mode = .Position →
      c.store p v = c.store_to_address p.value v) ∧
    (∀ p : Parameter, p.mode = .RelativePosition →
      c.store p v = c.store_to_address (c.relative_base + p.value) v) := by
  refine ⟨?_, ?_, ?_, ?_, ?_⟩
  · unfold Computer.poke
    rw [Memory.set_too_big c.memory a v ha]
  · intro hle
    unfold Computer.store_to_address
    rw [if_neg (by omega), Memory.set_too_big c.memory a v ha]
  · intro hgt
    unfold Computer.store_to_address
    rw [if_pos (by omega)]
  · intro p hp
    obtain ⟨mode, value⟩ := p
    cases hp
    rfl
  · intro p hp
    obtain ⟨mode, value⟩ := p
    cases hp
    rfl

/-- C9, witness: at address 100000 both `poke` and `store_to_address`
fault from the inner `Memory.set` bound (the address passes
`store_to_address`'s own 0..=131072 check), and at 200000 the outer check
faults. -/
theorem write_cap_inconsistency_witness :
    Computer.new.poke 100000 7 = .error "invalid index: 100000" ∧
      Computer.new.store_to_address 100000 7 = .error "invalid index: 100000" ∧
      Computer.new.store_to_address 200000 7 = .error "Invalid address: 200000" :=
  ⟨(write_cap_inconsistency Computer.new 100000 7 (by decide)).1,
   (write_cap_inconsistency Computer.new 100000 7 (by decide)).2.1 (by decide),
   (write_cap_inconsistency Computer.new 200000 7 (by decide)).2.2.1 (by decide)⟩

/-- C10: the step counter's behavior.  A call that returns early because
an output is already buffered leaves the machine — counter included —
untouched; with no buffered output, a call made with the counter already
at or above 100000000 panics with `Too many steps`; and every successful
call (including unproductive ones that return `BlockedOnInput`) leaves
the counter incremented by exactly one. -/
theorem step_counter_ceiling (c : Computer) :
    (∀ v, c.output = some v → c.step = .ok (.BlockedOnOutput, c)) ∧
    (c.output = none → 100000000 ≤ c.steps → c.step = .error "Too many steps") ∧
    (c.output = none → ∀ s c', c.step = .ok (s, c') → c'.steps = c.steps + 1) := by
  refine ⟨fun v hv => Computer.step_buffered c v hv,
    fun h h2 => Computer.step_ceiling c h h2, ?_⟩
  intro h s c' hstep
  by_cases h2 : c.steps < 100000000
  · rw [Computer.step_normal c h h2] at hstep
    cases hpi : parse_instruction c.pc c.memory with
    | error e =>
      rw [hpi] at hstep
      simp at hstep
    | ok i =>
      rw [hpi] at hstep
      have := Computer.execInstr_ok_steps _ _ _ _ hstep
      simpa using this
  · rw [Computer.step_ceiling c h (by omega)] at hstep
    simp at hstep

/-- C10, witness: the buffered-output guard leaves the counter at 0; a
machine at the ceiling panics; a machine at counter 5 stepping its halt
instruction comes back with counter 6. -/
theorem step_counter_ceiling_witness :
    ({ outputStart with output := some 9 } : Computer).step =
        .ok (.BlockedOnOutput, { outputStart with output := some 9 }) ∧
      ({ haltStart with steps := 100000000 } : Computer).step = .error "Too many steps" ∧
      ({ haltStart with finished := true, steps := 6 } : Computer).steps = 6 :=
  ⟨(step_counter_ceiling _).1 9 (by decide),
   (step_counter_ceiling _).2.1 (by decide) (by decide),
   (step_counter_ceiling { haltStart with steps := 5 }).2.2 (by decide) .Finished
     { haltStart with finished := true, steps := 6 } (by decide)⟩

end Intcode
